import Mathlib

/-!
# Verification of the bavcityGPT transformer core (`src/model.py`)

A shallow embedding of the model code in `src/model.py`:

* the numeric forward pass (`MultiHeadAttention.forward`, `Ffw.forward`,
  `TransformerBlock.forward`, `GPT.forward`) is embedded as functions over an
  abstract linearly ordered field `α` together with abstract `exp`, `log`,
  `sqrt` primitives (`Prims`); tensors of shape `(B, T, C)` are functions
  `Fin B → Fin T → Fin C → α`.  Float semantics are idealized as exact field
  arithmetic; `softmax` applied after `masked_fill(-inf)` is embedded by its
  real-number meaning, `exp(-inf) = 0` (masked entries contribute a zero
  weight to both numerator and the normalizing sum).
* dropout layers are embedded as elementwise multiplication by a caller
  supplied multiplier tensor (in `eval` mode the multiplier is identically 1;
  in training it is the realized Bernoulli mask divided by `1 - p`).  Two runs
  with "identical dropout randomness" use the same multiplier tensors.
* `F.cross_entropy(..., ignore_index=-1)` with mean reduction is embedded by a
  left fold over the flattened `(B, T)` positions; a mean over zero
  non-ignored elements (the IEEE `0/0`) is represented by the explicit value
  `FVal.nan`, and a target that is out of range (and not the ignore index)
  raises, mirroring PyTorch's `IndexError`.
* object-level aspects (`Parameter` storage aliasing after weight tying,
  `named_parameters()` deduplication, the `apply(self._init_weights)`
  traversal, and construction-time assertions together with torch's tensor
  size / dropout probability checks) are embedded separately by a reference
  model (`PRef`, `gptBuild`), an initialization event list (`initEvents`) and
  an `Except`-valued constructor (`gptInit`).
-/

namespace BavGPT

variable {α : Type} [LinearOrderedField α]

/-- Abstract numeric primitives standing for the float `exp`, `log`, `sqrt`. -/
structure Prims (α : Type) where
  exp : α → α
  log : α → α
  sqrt : α → α

/-- A `(B, T, C)` tensor. -/
abbrev T3 (B T C : ℕ) (α : Type) := Fin B → Fin T → Fin C → α

/-- Optional bias of a `nn.Linear`: `bias=False` is `none`. -/
def optBias [Zero α] {O : ℕ} (b : Option (Fin O → α)) (o : Fin O) : α :=
  match b with
  | some f => f o
  | none => 0

/-- `nn.Linear` on one position: `y = x @ W.T + b`, `W : (out, in)`. -/
def linearMap {O I : ℕ} (W : Fin O → Fin I → α) (b : Option (Fin O → α))
    (x : Fin I → α) (o : Fin O) : α :=
  (∑ i, W o i * x i) + optBias b o

/-- Parameters of one `TransformerBlock` (source classes `MultiHeadAttention`,
`Ffw`, the two `nn.LayerNorm`s).  `C = nh * hs` is the embedding width,
`F` the widened feed-forward dimension (`n_embd * ffw_widen`). -/
structure BlockParams (nh hs F : ℕ) (α : Type) where
  qkvW : Fin (3 * (nh * hs)) → Fin (nh * hs) → α
  qkvB : Option (Fin (3 * (nh * hs)) → α)
  projW : Fin (nh * hs) → Fin (nh * hs) → α
  projB : Option (Fin (nh * hs) → α)
  c_fcW : Fin F → Fin (nh * hs) → α
  c_fcB : Option (Fin F → α)
  fprojW : Fin (nh * hs) → Fin F → α
  fprojB : Option (Fin (nh * hs) → α)
  ln1g : Fin (nh * hs) → α
  ln1b : Fin (nh * hs) → α
  ln2g : Fin (nh * hs) → α
  ln2b : Fin (nh * hs) → α

/-- All model parameters.  `lmW` is the single tied weight tensor serving both
as `transformer.wte.weight` and `lm_head.weight` (the tie itself is verified
on the reference model `gptBuild` below). -/
structure GPTParams (V ctx nh hs F : ℕ) (α : Type) where
  lmW : Fin V → Fin (nh * hs) → α
  lmB : Option (Fin V → α)
  wpeW : Fin ctx → Fin (nh * hs) → α
  blocks : List (BlockParams nh hs F α)
  lnfg : Fin (nh * hs) → α
  lnfb : Fin (nh * hs) → α

/-- Realized dropout multipliers of one block for a `(B, T)` input. -/
structure BlockMasks (B T nh hs : ℕ) (α : Type) where
  attDrop : Fin B → Fin nh → Fin T → Fin T → α
  attOutDrop : T3 B T (nh * hs) α
  ffwDrop : T3 B T (nh * hs) α

/-- Realized dropout multipliers of the whole forward pass. -/
structure GPTMasks (B T nh hs : ℕ) (α : Type) where
  embDrop : T3 B T (nh * hs) α
  blockMasks : List (BlockMasks B T nh hs α)

lemma head_idx_lt {nh hs : ℕ} (h : Fin nh) (s : Fin hs) :
    h.val * hs + s.val < nh * hs := by
  calc h.val * hs + s.val < h.val * hs + hs := Nat.add_lt_add_left s.isLt _
    _ = (h.val + 1) * hs := by ring
    _ ≤ nh * hs := Nat.mul_le_mul_right hs h.isLt

/-- Index of `(j, h, s)` inside the flattened `3 * C` output of the fused
`qkv` linear layer: the source reshape `(B, T, 3, n_head, head_size)` splits
the last dimension row-major. -/
def qkvIdx {nh hs : ℕ} (j : Fin 3) (h : Fin nh) (s : Fin hs) :
    Fin (3 * (nh * hs)) :=
  ⟨j.val * (nh * hs) + (h.val * hs + s.val), by
    calc j.val * (nh * hs) + (h.val * hs + s.val)
        < j.val * (nh * hs) + nh * hs := Nat.add_lt_add_left (head_idx_lt h s) _
      _ = (j.val + 1) * (nh * hs) := by ring
      _ ≤ 3 * (nh * hs) := Nat.mul_le_mul_right (nh * hs) j.isLt⟩

lemma hs_pos_of_mem {nh hs : ℕ} (c : Fin (nh * hs)) : 0 < hs := by
  rcases Nat.eq_zero_or_pos hs with h | h
  · exfalso
    have hc := c.isLt
    subst h
    simp at hc
  · exact h

/-- Head index of channel `c` in the `transpose(1,2).reshape(B, T, C)`
reassembly (`c = h * head_size + s`). -/
def hOf {nh hs : ℕ} (c : Fin (nh * hs)) : Fin nh :=
  ⟨c.val / hs, (Nat.div_lt_iff_lt_mul (hs_pos_of_mem c)).mpr c.isLt⟩

/-- In-head offset of channel `c`. -/
def sOf {nh hs : ℕ} (c : Fin (nh * hs)) : Fin hs :=
  ⟨c.val % hs, Nat.mod_lt _ (hs_pos_of_mem c)⟩

section Attn

variable {B T nh hs F : ℕ}

/-- The fused `qkv` linear layer output, `self.qkv(x)`. -/
def qkvOut (bp : BlockParams nh hs F α) (x : T3 B T (nh * hs) α)
    (b : Fin B) (t : Fin T) : Fin (3 * (nh * hs)) → α :=
  linearMap bp.qkvW bp.qkvB (x b t)

/-- `q[b, h, t, s]` after the reshape/permute split (`qkv[0]`). -/
def qHead (bp : BlockParams nh hs F α) (x : T3 B T (nh * hs) α)
    (b : Fin B) (h : Fin nh) (t : Fin T) (s : Fin hs) : α :=
  qkvOut bp x b t (qkvIdx 0 h s)

/-- `k[b, h, t, s]` (`qkv[1]`). -/
def kHead (bp : BlockParams nh hs F α) (x : T3 B T (nh * hs) α)
    (b : Fin B) (h : Fin nh) (t : Fin T) (s : Fin hs) : α :=
  qkvOut bp x b t (qkvIdx 1 h s)

/-- `v[b, h, t, s]` (`qkv[2]`). -/
def vHead (bp : BlockParams nh hs F α) (x : T3 B T (nh * hs) α)
    (b : Fin B) (h : Fin nh) (t : Fin T) (s : Fin hs) : α :=
  qkvOut bp x b t (qkvIdx 2 h s)

/-- Raw attention scores `(q @ k.T) * head_size ** -0.5`. -/
def attScore (ops : Prims α) (bp : BlockParams nh hs F α)
    (x : T3 B T (nh * hs) α) (b : Fin B) (h : Fin nh) (t t2 : Fin T) : α :=
  (∑ s : Fin hs, qHead bp x b h t s * kHead bp x b h t2 s) *
    (1 / ops.sqrt (hs : α))

/-- The exponential of a masked score: entries above the diagonal of the
`tril` buffer (restricted to the first `T` rows/columns) are filled with
`-inf` before the softmax, so their exponential is `0`. -/
def attExp (ops : Prims α) (bp : BlockParams nh hs F α)
    (x : T3 B T (nh * hs) α) (b : Fin B) (h : Fin nh) (t t2 : Fin T) : α :=
  if (t2 : ℕ) ≤ (t : ℕ) then ops.exp (attScore ops bp x b h t t2) else 0

/-- `F.softmax(att.masked_fill(self.tril[:T,:T] == 0, -inf), dim=-1)`. -/
def attWeight (ops : Prims α) (bp : BlockParams nh hs F α)
    (x : T3 B T (nh * hs) α) (b : Fin B) (h : Fin nh) (t t2 : Fin T) : α :=
  attExp ops bp x b h t t2 / ∑ t3 : Fin T, attExp ops bp x b h t t3

/-- `MultiHeadAttention.forward`: weight, apply attention dropout, contract
with `v`, reassemble heads, project, apply output dropout. -/
def mhaForward (ops : Prims α) (bp : BlockParams nh hs F α)
    (attM : Fin B → Fin nh → Fin T → Fin T → α) (outM : T3 B T (nh * hs) α)
    (x : T3 B T (nh * hs) α) : T3 B T (nh * hs) α :=
  fun b t c =>
    outM b t c *
      linearMap bp.projW bp.projB
        (fun c2 => ∑ t2 : Fin T,
          (attM b (hOf c2) t t2 * attWeight ops bp x b (hOf c2) t t2) *
            vHead bp x b (hOf c2) t2 (sOf c2)) c

/-- `Ffw.forward`: widen, ReLU, project back, dropout. -/
def ffwForward (bp : BlockParams nh hs F α) (ffwM : T3 B T (nh * hs) α)
    (x : T3 B T (nh * hs) α) : T3 B T (nh * hs) α :=
  fun b t c =>
    ffwM b t c *
      linearMap bp.fprojW bp.fprojB
        (fun f => max (linearMap bp.c_fcW bp.c_fcB (x b t) f) 0) c

end Attn

/-- `nn.LayerNorm` over the last dimension, biased variance, `eps = 1e-5`,
learned elementwise scale `g` and shift `b2`. -/
def layerNorm {C : ℕ} (ops : Prims α) (g b2 : Fin C → α) (x : Fin C → α)
    (c : Fin C) : α :=
  let μ := (∑ c2, x c2) / (C : α)
  let v := (∑ c2, (x c2 - μ) ^ 2) / (C : α)
  (x c - μ) / ops.sqrt (v + 1 / 100000) * g c + b2 c

/-- `nn.LayerNorm` lifted to a `(B, T, C)` tensor. -/
def lnT3 {B T C : ℕ} (ops : Prims α) (g b2 : Fin C → α) (x : T3 B T C α) :
    T3 B T C α :=
  fun b t => layerNorm ops g b2 (x b t)

/-- The attention sub-layer with its residual connection,
`x + self.multi_head_sa(self.ln1(x))`. -/
def attnSub {B T nh hs F : ℕ} (ops : Prims α) (bp : BlockParams nh hs F α)
    (bm : BlockMasks B T nh hs α) (x : T3 B T (nh * hs) α) :
    T3 B T (nh * hs) α :=
  fun b t c =>
    x b t c + mhaForward ops bp bm.attDrop bm.attOutDrop
      (lnT3 ops bp.ln1g bp.ln1b x) b t c

/-- `TransformerBlock.forward`:
`x = x + self.multi_head_sa(self.ln1(x)); x = x + self.ffw(self.ln2(x))`. -/
def blockForward {B T nh hs F : ℕ} (ops : Prims α) (bp : BlockParams nh hs F α)
    (bm : BlockMasks B T nh hs α) (x : T3 B T (nh * hs) α) :
    T3 B T (nh * hs) α :=
  fun b t c =>
    attnSub ops bp bm x b t c +
      ffwForward bp bm.ffwDrop
        (lnT3 ops bp.ln2g bp.ln2b (attnSub ops bp bm x)) b t c

/-- Two `(B, T, C)` tensors agree at every position `t ≤ i` (in every batch
element and channel). -/
def AgreeUpTo {B T C : ℕ} (i : ℕ) (x y : T3 B T C α) : Prop :=
  ∀ (b : Fin B) (t : Fin T) (c : Fin C), (t : ℕ) ≤ i → x b t c = y b t c

section Forward

variable {B T V ctx nh hs F : ℕ}

/-- The token index as a `Fin`, available once the embedding lookup bound
check `0 ≤ idx < vocab_size` is known to hold. -/
def tokFin (idx : Fin B → Fin T → ℤ)
    (hv : ∀ b t, 0 ≤ idx b t ∧ idx b t < (V : ℤ)) (b : Fin B) (t : Fin T) :
    Fin V :=
  ⟨(idx b t).toNat, by have := hv b t; omega⟩

/-- The hidden state after embeddings, embedding dropout, the block stack and
the final layer norm (`GPT.forward` up to `x = self.transformer.ln_f(x)`). -/
def gptX (ops : Prims α) (p : GPTParams V ctx nh hs F α)
    (m : GPTMasks B T nh hs α) (idx : Fin B → Fin T → ℤ) (hT : T ≤ ctx)
    (hv : ∀ b t, 0 ≤ idx b t ∧ idx b t < (V : ℤ)) : T3 B T (nh * hs) α :=
  let x0 : T3 B T (nh * hs) α := fun b t c =>
    m.embDrop b t c *
      (p.lmW (tokFin idx hv b t) c + p.wpeW (Fin.castLE hT t) c)
  lnT3 ops p.lnfg p.lnfb
    ((p.blocks.zip m.blockMasks).foldl
      (fun acc pr => blockForward ops pr.1 pr.2 acc) x0)

/-- `self.lm_head` applied to every position. -/
def lmHeadT3 (p : GPTParams V ctx nh hs F α) (x : T3 B T (nh * hs) α)
    (b : Fin B) (t : Fin T) : Fin V → α :=
  linearMap p.lmW p.lmB (x b t)

/-- The full-sequence logits `self.lm_head(x)` of the training branch. -/
def gptLogitsAll (ops : Prims α) (p : GPTParams V ctx nh hs F α)
    (m : GPTMasks B T nh hs α) (idx : Fin B → Fin T → ℤ) (hT : T ≤ ctx)
    (hv : ∀ b t, 0 ≤ idx b t ∧ idx b t < (V : ℤ)) :
    Fin B → Fin T → Fin V → α :=
  lmHeadT3 p (gptX ops p m idx hT hv)

end Forward

/-- A float result that may be the IEEE `NaN` produced by a `0/0` mean. -/
inductive FVal (α : Type) where
  | nan : FVal α
  | fin : α → FVal α
deriving DecidableEq

/-- Per-element negative log likelihood `-log softmax(row)[τ]`, written as
`log (Σ exp) - row τ`. -/
def nllRow {V : ℕ} (ops : Prims α) (row : Fin V → α) (τ : Fin V) : α :=
  ops.log (∑ v2, ops.exp (row v2)) - row τ

/-- The flattening order of `logits.view(-1, V)` / `targets.view(-1)`:
batch-major over `(B, T)`. -/
def ceItems (B T : ℕ) : List (Fin B × Fin T) :=
  (List.finRange B).flatMap fun b => (List.finRange T).map fun t => (b, t)

/-- One step of the cross-entropy reduction: skip positions whose target is
the ignore index, accumulate `(Σ nll, count)` otherwise, raise on an
out-of-range target. -/
def ceStep {B T V : ℕ} (ops : Prims α) (ig : ℤ)
    (L : Fin B → Fin T → Fin V → α) (tg : Fin B → Fin T → ℤ) (acc : α × ℕ)
    (p : Fin B × Fin T) : Except String (α × ℕ) :=
  let τ := tg p.1 p.2
  if τ = ig then .ok acc
  else if hτ : 0 ≤ τ ∧ τ < (V : ℤ) then
    .ok (acc.1 + nllRow ops (L p.1 p.2) ⟨τ.toNat, by omega⟩, acc.2 + 1)
  else .error ("Target " ++ toString τ ++ " is out of bounds.")

/-- `F.cross_entropy(logits.view(-1, V), targets.view(-1), ignore_index=ig)`
with the default mean reduction; the mean over zero elements is `NaN`. -/
def ceLossResult {B T V : ℕ} (ops : Prims α) (ig : ℤ)
    (L : Fin B → Fin T → Fin V → α) (tg : Fin B → Fin T → ℤ) :
    Except String (FVal α) := do
  let r ← (ceItems B T).foldlM (ceStep ops ig L tg) ((0 : α), (0 : ℕ))
  if r.2 = 0 then pure .nan else pure (.fin (r.1 / (r.2 : α)))

/-- The ignore index the source passes to `F.cross_entropy`. -/
def gptIgnoreIndex : ℤ := -1

/-- The message of the `assert T <= self.config.context_len` failure. -/
def lengthErr (T ctx : ℕ) : String :=
  "T: " ++ toString T ++ " exceeds context_len " ++ toString ctx

/-- A returned logits tensor together with its dynamic shape. -/
structure T3S (α : Type) where
  B : ℕ
  T : ℕ
  V : ℕ
  data : Fin B → Fin T → Fin V → α

/-- The dynamic shape of a returned tensor. -/
def shape3 (t : T3S α) : ℕ × ℕ × ℕ := (t.B, t.T, t.V)

section GPTForward

variable {B T V ctx nh hs F : ℕ}

/-- `GPT.forward` after the sequence-length assertion has passed. -/
def gptForwardBody (ops : Prims α) (p : GPTParams V ctx nh hs F α)
    (m : GPTMasks B T nh hs α) (idx : Fin B → Fin T → ℤ)
    (targets : Option (Fin B → Fin T → ℤ)) (hT : T ≤ ctx) :
    Except String (T3S α × Option (FVal α)) :=
  if hv : ∀ b t, 0 ≤ idx b t ∧ idx b t < (V : ℤ) then
    match targets with
    | some tg => do
        let loss ← ceLossResult ops gptIgnoreIndex
          (gptLogitsAll ops p m idx hT hv) tg
        .ok (⟨B, T, V, gptLogitsAll ops p m idx hT hv⟩, some loss)
    | none =>
        if h0 : 0 < T then
          .ok (⟨B, 1, V, fun b _ v2 =>
            gptLogitsAll ops p m idx hT hv b ⟨T - 1, by omega⟩ v2⟩, none)
        else .error "index -1 is out of bounds for dimension 1 with size 0"
  else .error "index out of range in self"

/-- `GPT.forward`: assert `T ≤ context_len`, embed, run the block stack, and
either compute full logits and the cross-entropy loss (targets given) or the
last-position logits with a `None` loss (inference). -/
def gptForward (ops : Prims α) (p : GPTParams V ctx nh hs F α)
    (m : GPTMasks B T nh hs α) (idx : Fin B → Fin T → ℤ)
    (targets : Option (Fin B → Fin T → ℤ)) :
    Except String (T3S α × Option (FVal α)) :=
  if hT : T ≤ ctx then gptForwardBody ops p m idx targets hT
  else .error (lengthErr T ctx)

end GPTForward

/-! ## Reference model of the module tree

Python-level object identity of `nn.Parameter` tensors is embedded by a
reference type `PRef`: every parameter tensor allocated during `GPT.__init__`
gets its own reference, and a module field holds a reference.  The weight
tying line `self.transformer.wte.weight = self.lm_head.weight` reassigns the
`wte` field to the reference held by `lm_head`. -/

/-- One reference per allocated parameter tensor (`i` is the block index). -/
inductive PRef where
  | wteW : PRef
  | wpe : PRef
  | lmW : PRef
  | lmB : PRef
  | lnfW : PRef
  | lnfB : PRef
  | qkvW : ℕ → PRef
  | qkvB : ℕ → PRef
  | aProjW : ℕ → PRef
  | aProjB : ℕ → PRef
  | cfcW : ℕ → PRef
  | cfcB : ℕ → PRef
  | fProjW : ℕ → PRef
  | fProjB : ℕ → PRef
  | ln1W : ℕ → PRef
  | ln1B : ℕ → PRef
  | ln2W : ℕ → PRef
  | ln2B : ℕ → PRef
deriving DecidableEq, Repr

/-- Parameter references held by one `TransformerBlock` (`idx` is its
position in the `ModuleList`; absent biases are `none`). -/
structure BlockRefs where
  idx : ℕ
  qkvW : PRef
  qkvB : Option PRef
  aProjW : PRef
  aProjB : Option PRef
  cfcW : PRef
  cfcB : Option PRef
  fProjW : PRef
  fProjB : Option PRef
  ln1W : PRef
  ln1B : PRef
  ln2W : PRef
  ln2B : PRef
deriving DecidableEq, Repr

/-- Parameter references held by the `GPT` module tree. -/
structure GPTRefs where
  wteW : PRef
  wpeW : PRef
  blocks : List BlockRefs
  lnfW : PRef
  lnfB : PRef
  lmW : PRef
  lmB : Option PRef
deriving DecidableEq, Repr

/-- References allocated by `TransformerBlock.__init__` for block `i`. -/
def mkBlockRefs (ab fb : Bool) (i : ℕ) : BlockRefs :=
  { idx := i
    qkvW := .qkvW i
    qkvB := if ab then some (.qkvB i) else none
    aProjW := .aProjW i
    aProjB := if ab then some (.aProjB i) else none
    cfcW := .cfcW i
    cfcB := if fb then some (.cfcB i) else none
    fProjW := .fProjW i
    fProjB := if fb then some (.fProjB i) else none
    ln1W := .ln1W i
    ln1B := .ln1B i
    ln2W := .ln2W i
    ln2B := .ln2B i }

/-- `GPT.__init__` at the object level: allocate all parameter tensors, then
tie `transformer.wte.weight` to `lm_head.weight`.  `ab`, `fb`, `lb` are the
`a_bias`, `ffw_bias`, `lm_head_bias` switches. -/
def gptBuild (nl : ℕ) (ab fb lb : Bool) : GPTRefs :=
  let base : GPTRefs :=
    { wteW := .wteW
      wpeW := .wpe
      blocks := (List.range nl).map (mkBlockRefs ab fb)
      lnfW := .lnfW
      lnfB := .lnfB
      lmW := .lmW
      lmB := if lb then some .lmB else none }
  { base with wteW := base.lmW }

/-- The backing store mapping each parameter reference to its entries. -/
def PStore (α : Type) := PRef → ℕ → ℕ → α

/-- Read one entry of a parameter tensor through a reference. -/
def readP (s : PStore α) (r : PRef) (i j : ℕ) : α := s r i j

/-- In-place write of one entry of a parameter tensor through a reference. -/
def writeP (s : PStore α) (r : PRef) (i j : ℕ) (v : α) : PStore α :=
  fun r2 i2 j2 => if r2 = r ∧ i2 = i ∧ j2 = j then v else s r2 i2 j2

/-! ## `named_parameters()` and `get_num_params` -/

/-- The entries contributed by an optional bias parameter. -/
def optEntry (n : List String) (o : Option PRef) : List (List String × PRef) :=
  match o with
  | some r => [(n, r)]
  | none => []

/-- Dotted parameter names are embedded as their component lists (no
component contains a dot). -/
def blockName (i : ℕ) (rest : List String) : List String :=
  "transformer" :: "h" :: toString i :: rest

/-- The named parameters contributed by block `b`, in registration order. -/
def blockEntries (b : BlockRefs) : List (List String × PRef) :=
  [(blockName b.idx ["multi_head_sa", "qkv", "weight"], b.qkvW)]
  ++ optEntry (blockName b.idx ["multi_head_sa", "qkv", "bias"]) b.qkvB
  ++ [(blockName b.idx ["multi_head_sa", "proj", "weight"], b.aProjW)]
  ++ optEntry (blockName b.idx ["multi_head_sa", "proj", "bias"]) b.aProjB
  ++ [(blockName b.idx ["ffw", "c_fc", "weight"], b.cfcW)]
  ++ optEntry (blockName b.idx ["ffw", "c_fc", "bias"]) b.cfcB
  ++ [(blockName b.idx ["ffw", "proj", "weight"], b.fProjW)]
  ++ optEntry (blockName b.idx ["ffw", "proj", "bias"]) b.fProjB
  ++ [(blockName b.idx ["ln1", "weight"], b.ln1W),
      (blockName b.idx ["ln1", "bias"], b.ln1B),
      (blockName b.idx ["ln2", "weight"], b.ln2W),
      (blockName b.idx ["ln2", "bias"], b.ln2B)]

/-- `self.named_parameters()` before duplicate removal: the depth-first
registration-order walk of the module tree. -/
def rawNamed (m : GPTRefs) : List (List String × PRef) :=
  [(["transformer", "wte", "weight"], m.wteW),
   (["transformer", "wpe", "weight"], m.wpeW)]
  ++ m.blocks.flatMap blockEntries
  ++ [(["transformer", "ln_f", "weight"], m.lnfW),
      (["transformer", "ln_f", "bias"], m.lnfB),
      (["lm_head", "weight"], m.lmW)]
  ++ optEntry ["lm_head", "bias"] m.lmB

/-- Duplicate removal of `named_parameters(remove_duplicate=True)`: keep the
first occurrence of every parameter object (reference). -/
def dedupByRef : List (List String × PRef) → List (List String × PRef)
  | [] => []
  | x :: xs => x :: dedupByRef (xs.filter fun y => decide (y.2 ≠ x.2))
termination_by l => l.length
decreasing_by
  exact Nat.lt_succ_of_le (List.length_filter_le _ _)

/-- `self.named_parameters()` with its default duplicate removal. -/
def namedParameters (m : GPTRefs) : List (List String × PRef) :=
  dedupByRef (rawNamed m)

/-- `p.numel()` of the tensor behind each reference, given the shape
parameters (`C = n_embd`, `F = n_embd * ffw_widen`). -/
def numel (V ctx C F : ℕ) : PRef → ℕ
  | .wteW => V * C
  | .lmW => V * C
  | .wpe => ctx * C
  | .lmB => V
  | .lnfW => C
  | .lnfB => C
  | .qkvW _ => 3 * C * C
  | .qkvB _ => 3 * C
  | .aProjW _ => C * C
  | .aProjB _ => C
  | .cfcW _ => F * C
  | .cfcB _ => F
  | .fProjW _ => C * F
  | .fProjB _ => C
  | .ln1W _ => C
  | .ln1B _ => C
  | .ln2W _ => C
  | .ln2B _ => C

/-- `GPT.get_num_params`: the sum of `p.numel()` over `self.parameters()`,
minus the position-embedding element count when `non_embedding` is set. -/
def get_num_params (V ctx C F : ℕ) (m : GPTRefs) (nonEmbedding : Bool) : ℕ :=
  ((namedParameters m).map fun e => numel V ctx C F e.2).sum
    - (if nonEmbedding then numel V ctx C F m.wpeW else 0)

/-! ## The `_init_weights` traversal as an event list

`self.apply(self._init_weights)` calls the callback once per module,
children first.  Each call performs the general pass on that module (when it
is a `Linear` or an `Embedding`) and then loops over all of
`self.named_parameters()`, re-drawing every parameter whose dotted name ends
in `"proj.weight"`.  Each `torch.nn.init.normal_` call is an independent
fresh draw, so the distribution of the final value of a parameter is that of
the last fill event targeting it. -/

/-- Which standard deviation a `normal_` fill used: the general `0.02` or the
rescaled `0.02 / sqrt(2 * n_layer)`. -/
inductive StdV where
  | std002 : StdV
  | scaled : StdV
deriving DecidableEq, Repr

/-- One in-place initialization of a whole parameter tensor. -/
inductive IEvent where
  | normF : PRef → ℚ → StdV → IEvent
  | zeroF : PRef → IEvent
deriving DecidableEq, Repr

/-- The numeric standard deviation each symbol stands for. -/
def interpStd (ops : Prims α) (nl : ℕ) : StdV → α
  | .std002 => 2 / 100
  | .scaled => 2 / 100 / ops.sqrt (2 * (nl : α))

/-- `name.endswith("proj.weight")` for a dotted name given by its components
(no component contains a dot): the name ends in `proj.weight` exactly when
its last component is `weight` and the one before ends in the characters
`proj`. -/
def matchProjWeight (n : List String) : Bool :=
  match n.reverse with
  | last :: prev :: _ => last = "weight" && "proj".data.isSuffixOf prev.data
  | _ => false

/-- The rescaling loop over `self.named_parameters()` run by one callback
invocation. -/
def projPass (np : List (List String × PRef)) : List IEvent :=
  np.filterMap fun e =>
    if matchProjWeight e.1 then some (.normF e.2 0 .scaled) else none

/-- What `apply` hands the callback for one visited module: `none` for a
module that is neither `Linear` nor `Embedding`, otherwise its weight
reference and optional bias reference. -/
def ModInfo := Option (PRef × Option PRef)

/-- The events of one `_init_weights` callback invocation. -/
def callbackEvents (np : List (List String × PRef)) : ModInfo → List IEvent
  | some (w, b) =>
      [.normF w 0 .std002]
      ++ (match b with | some br => [.zeroF br] | none => [])
      ++ projPass np
  | none => projPass np

/-- The module visit order of `self.apply(self._init_weights)`: children
first, depth first, in registration order; the `GPT` module itself is last.
Note `wte.weight` is the tied reference by the time `apply` runs. -/
def visitList (m : GPTRefs) : List ModInfo :=
  [some (m.wteW, none), some (m.wpeW, none), none]
  ++ m.blocks.flatMap (fun b =>
      [some (b.qkvW, b.qkvB), some (b.aProjW, b.aProjB), none, none,
       some (b.cfcW, b.cfcB), none, some (b.fProjW, b.fProjB), none, none,
       none, none, none])
  ++ [none, none, none, some (m.lmW, m.lmB), none]

/-- All initialization events of `self.apply(self._init_weights)`, in
execution order. -/
def initEvents (m : GPTRefs) : List IEvent :=
  (visitList m).flatMap (callbackEvents (namedParameters m))

/-- The parameter a fill event writes. -/
def evTarget : IEvent → PRef
  | .normF r _ _ => r
  | .zeroF r => r

/-- The last fill event targeting `r`, which determines the distribution of
the final value of `r` after initialization. -/
def lastFill (r : PRef) (evs : List IEvent) : Option IEvent :=
  evs.reverse.find? fun e => decide (evTarget e = r)

/-! ## Construction-time checking (`GPT.__init__` argument validation)

Python `assert`s and the torch-level argument checks of
`nn.Embedding` / `nn.Linear` / `nn.Dropout` / `torch.ones` / `nn.LayerNorm`
are embedded as an `Except`-valued constructor run in source order.
Configuration integers are unbounded (`ℤ`), as in Python; the
`isinstance(config, GPTconfig)` check cannot fail in this typed embedding. -/

/-- `GPTconfig` with its source defaults (`dropout = 0.2`). -/
structure GPTconfig where
  context_len : ℤ := 64
  vocab_size : ℤ := 61
  n_embd : ℤ := 256
  n_head : ℤ := 8
  n_layer : ℤ := 8
  dropout : ℚ := 1 / 5
  ffw_widen : ℤ := 4
  a_bias : Bool := true
  ffw_bias : Bool := true
  lm_head_bias : Bool := false
deriving DecidableEq, Repr

/-- A Python `assert cond, msg`. -/
def pyAssert (cond : Prop) [Decidable cond] (msg : String) :
    Except String Unit :=
  if cond then .ok () else .error msg

/-- `nn.Embedding(num, dim)`: rejects negative tensor dimensions. -/
def mkEmbedding (num dim : ℤ) : Except String Unit :=
  if 0 ≤ num ∧ 0 ≤ dim then .ok ()
  else .error "Trying to create tensor with negative dimension"

/-- `nn.Linear(inF, outF)`: rejects negative tensor dimensions. -/
def mkLinear (inF outF : ℤ) : Except String Unit :=
  if 0 ≤ inF ∧ 0 ≤ outF then .ok ()
  else .error "Trying to create tensor with negative dimension"

/-- `nn.Dropout(p)`: requires `0 ≤ p ≤ 1`. -/
def mkDropout (p : ℚ) : Except String Unit :=
  if 0 ≤ p ∧ p ≤ 1 then .ok ()
  else .error "dropout probability has to be between 0 and 1"

/-- `torch.ones(n, n)` (the `tril` mask buffer): rejects a negative size. -/
def mkOnes (n : ℤ) : Except String Unit :=
  if 0 ≤ n then .ok ()
  else .error "Trying to create tensor with negative dimension"

/-- `nn.LayerNorm(n)`: rejects a negative normalized shape. -/
def mkLayerNorm (n : ℤ) : Except String Unit :=
  if 0 ≤ n then .ok ()
  else .error "Trying to create tensor with negative dimension"

/-- `MultiHeadAttention.__init__`. -/
def mhaInit (c : GPTconfig) : Except String Unit := do
  pyAssert (c.n_embd % c.n_head = 0)
    "Ratio n_embd / n_head must have no remainder."
  mkLinear c.n_embd (3 * c.n_embd)
  mkLinear c.n_embd c.n_embd
  mkDropout c.dropout
  mkOnes c.context_len

/-- `Ffw.__init__`. -/
def ffwInit (c : GPTconfig) : Except String Unit := do
  mkLinear c.n_embd (c.n_embd * c.ffw_widen)
  mkLinear (c.n_embd * c.ffw_widen) c.n_embd
  mkDropout c.dropout

/-- `TransformerBlock.__init__`. -/
def blockInit (c : GPTconfig) : Except String Unit := do
  mhaInit c
  ffwInit c
  mkLayerNorm c.n_embd
  mkLayerNorm c.n_embd

/-- `GPT.__init__` argument validation, in source order: the three asserts,
then all sub-module constructions. -/
def gptInit (c : GPTconfig) : Except String Unit := do
  pyAssert (0 < c.n_head) "n_head must be positive."
  pyAssert (0 < c.n_layer) "n_layer must be positive."
  pyAssert (0 < c.vocab_size) "vocab_size must be positive."
  mkEmbedding c.vocab_size c.n_embd
  mkEmbedding c.context_len c.n_embd
  mkDropout c.dropout
  (List.range c.n_layer.toNat).foldlM (fun _ _ => blockInit c) ()
  mkLayerNorm c.n_embd
  mkLinear c.n_embd c.vocab_size

/-- The validity conditions claimed by the specification. -/
def claimedValid (c : GPTconfig) : Prop :=
  0 < c.n_head ∧ 0 < c.n_layer ∧ 0 < c.vocab_size ∧ c.n_embd % c.n_head = 0

instance (c : GPTconfig) : Decidable (claimedValid c) := by
  unfold claimedValid; infer_instance

/-- The exact conditions under which `GPT.__init__` succeeds: the asserted
conditions plus the torch-level tensor size and dropout range checks. -/
def validCfg (c : GPTconfig) : Prop :=
  0 < c.n_head ∧ 0 < c.n_layer ∧ 0 < c.vocab_size ∧
    c.n_embd % c.n_head = 0 ∧ 0 ≤ c.n_embd ∧ 0 ≤ c.context_len ∧
    0 ≤ c.n_embd * c.ffw_widen ∧ 0 ≤ c.dropout ∧ c.dropout ≤ 1

/-! ## Spec-side definitions and counterexample/witness instances -/

/-- Modelled from the spec's words for the refinement claim about
`TransformerBlock.forward`: the pre-normalization residual composition
`x1 = x + attn(nrm1 x)`, `out = x1 + ffn(nrm2 x1)`. -/
def preNormResidual {B T C : ℕ} (attn ffn nrm1 nrm2 : T3 B T C α → T3 B T C α)
    (x : T3 B T C α) : T3 B T C α :=
  let x1 : T3 B T C α := fun b t c => x b t c + attn (nrm1 x) b t c
  fun b t c => x1 b t c + ffn (nrm2 x1) b t c

/-- The per-block parameter count with the biases switched by the config
flags (the spec-side closed formula; `C = n_embd`,
`F = n_embd * ffw_widen`). -/
def blockParamCount (C F : ℕ) (ab fb : Bool) : ℕ :=
  3 * C * C + (if ab then 3 * C else 0) + C * C + (if ab then C else 0)
    + F * C + (if fb then F else 0) + C * F + (if fb then C else 0) + 4 * C

/-- The spec-side total parameter count in which the tied embedding/output
weight tensor is counted exactly once. -/
def totalParamCount (V ctx C F nl : ℕ) (ab fb lb : Bool) : ℕ :=
  V * C + ctx * C + nl * blockParamCount C F ab fb + 2 * C
    + (if lb then V else 0)

/-- The block index carried by a per-block parameter reference (`none` for
the top-level parameters). -/
def refIdx : PRef → Option ℕ
  | .qkvW i => some i
  | .qkvB i => some i
  | .aProjW i => some i
  | .aProjB i => some i
  | .cfcW i => some i
  | .cfcB i => some i
  | .fProjW i => some i
  | .fProjB i => some i
  | .ln1W i => some i
  | .ln1B i => some i
  | .ln2W i => some i
  | .ln2B i => some i
  | _ => none

/-- The parameter references of block `i`, in registration order. -/
def blockRefList (ab fb : Bool) (i : ℕ) : List PRef :=
  [.qkvW i] ++ (if ab then [.qkvB i] else [])
    ++ [.aProjW i] ++ (if ab then [.aProjB i] else [])
    ++ [.cfcW i] ++ (if fb then [.cfcB i] else [])
    ++ [.fProjW i] ++ (if fb then [.fProjB i] else [])
    ++ [.ln1W i, .ln1B i, .ln2W i, .ln2B i]

/-- The deduplicated named-parameter list of a freshly built model: the raw
walk minus the `lm_head.weight` entry, whose parameter object was already
seen under the name `transformer.wte.weight`. -/
def uniqueNamed (nl : ℕ) (ab fb lb : Bool) : List (List String × PRef) :=
  [(["transformer", "wte", "weight"], PRef.lmW),
   (["transformer", "wpe", "weight"], PRef.wpe)]
  ++ ((List.range nl).map (mkBlockRefs ab fb)).flatMap blockEntries
  ++ [(["transformer", "ln_f", "weight"], PRef.lnfW),
      (["transformer", "ln_f", "bias"], PRef.lnfB)]
  ++ (if lb then [(["lm_head", "bias"], PRef.lmB)] else [])

/-- The flattened positions the cross-entropy reduction keeps: those whose
target differs from the ignore index. -/
def ceKept {B T : ℕ} (ig : ℤ) (tg : Fin B → Fin T → ℤ) :
    List (Fin B × Fin T) :=
  (ceItems B T).filter fun p2 => decide (tg p2.1 p2.2 ≠ ig)

/-- The per-position loss contribution of a kept position (`0` when the
target is out of range, in which case the reduction raises instead). -/
def ceNllAt {B T V : ℕ} (ops : Prims α) (L : Fin B → Fin T → Fin V → α)
    (tg : Fin B → Fin T → ℤ) (p2 : Fin B × Fin T) : α :=
  if h : 0 ≤ tg p2.1 p2.2 ∧ tg p2.1 p2.2 < (V : ℤ) then
    nllRow ops (L p2.1 p2.2) ⟨(tg p2.1 p2.2).toNat, by omega⟩
  else 0

/-- Abstract primitives instantiated trivially for concrete evaluation. -/
def ops0 : Prims ℚ := ⟨id, id, id⟩

/-- A concrete all-zero block with one head of size one, `F = 1`. -/
def bp1 : BlockParams 1 1 1 ℚ :=
  ⟨fun _ _ => 0, none, fun _ _ => 0, none, fun _ _ => 0, none,
   fun _ _ => 0, none, fun _ => 1, fun _ => 0, fun _ => 1, fun _ => 0⟩

/-- A concrete one-block model, `vocab_size = 2`, `context_len = 2`. -/
def p1 : GPTParams 2 2 1 1 1 ℚ :=
  ⟨fun _ _ => 0, none, fun _ _ => 0, [bp1], fun _ => 1, fun _ => 0⟩

/-- All-ones (eval-mode) dropout multipliers for a `(1, T)` input. -/
def ms1 (T : ℕ) : GPTMasks 1 T 1 1 ℚ :=
  ⟨fun _ _ _ => 1, [⟨fun _ _ _ _ => 1, fun _ _ _ => 1, fun _ _ _ => 1⟩]⟩

/-- The all-zeros `(1, T)` token batch. -/
def idxZ (T : ℕ) : Fin 1 → Fin T → ℤ := fun _ _ => 0

/-- A `(1, 2)` batch whose second (future) position differs from `idxZ`. -/
def idxPerturbed : Fin 1 → Fin 2 → ℤ := fun _ t => if (t : ℕ) = 1 then 1 else 0

/-- All-ones dropout multipliers for the degenerate `(1, 0)` input. -/
def msT0 : GPTMasks 1 0 1 1 ℚ :=
  ⟨fun _ t => t.elim0,
   [⟨fun _ _ t => t.elim0, fun _ t => t.elim0, fun _ t => t.elim0⟩]⟩

/-- The empty `(1, 0)` token batch. -/
def idxT0 : Fin 1 → Fin 0 → ℤ := fun _ t => t.elim0

/-- A `(1, 1)` targets tensor whose entry `5` is out of range for
`vocab_size = 2` and is not the ignore index. -/
def tgBad : Fin 1 → Fin 1 → ℤ := fun _ _ => 5

/-- A `(1, 1)` targets tensor that is the ignore index everywhere. -/
def tgIgnore : Fin 1 → Fin 1 → ℤ := fun _ _ => -1

/-- `{ context_len := -1 }`: passes every condition the claim lists, yet
`nn.Embedding(context_len, n_embd)` rejects the negative size. -/
def cfgA : GPTconfig := { context_len := -1 }

/-- `{ n_embd := -8 }`: `(-8) % 8 = 0`, so the divisibility condition holds,
yet the embedding/linear constructions reject the negative size. -/
def cfgB : GPTconfig := { n_embd := -8 }

/-- `{ dropout := 2 }`: `nn.Dropout` rejects a probability above 1. -/
def cfgC : GPTconfig := { dropout := 2 }

/-- `{ ffw_widen := -1 }`: `nn.Linear(n_embd, n_embd * ffw_widen)` rejects
the negative output size. -/
def cfgD : GPTconfig := { ffw_widen := -1 }

/-! ## Helper lemmas -/

lemma except_bind_ok (x : Except String Unit) (k : Unit → Except String Unit) :
    (x >>= k) = .ok () ↔ x = .ok () ∧ k () = .ok () := by
  cases x with
  | ok u => cases u; simp [Bind.bind, Except.bind]
  | error e => simp [Bind.bind, Except.bind]

lemma pyAssert_ok (p : Prop) [Decidable p] (msg : String) :
    pyAssert p msg = .ok () ↔ p := by
  unfold pyAssert; split_ifs with h <;> simp [h]

lemma mkEmbedding_ok (a b : ℤ) :
    mkEmbedding a b = .ok () ↔ 0 ≤ a ∧ 0 ≤ b := by
  unfold mkEmbedding; split_ifs with h <;> simp [h]

lemma mkLinear_ok (a b : ℤ) : mkLinear a b = .ok () ↔ 0 ≤ a ∧ 0 ≤ b := by
  unfold mkLinear; split_ifs with h <;> simp [h]

lemma mkDropout_ok (p : ℚ) : mkDropout p = .ok () ↔ 0 ≤ p ∧ p ≤ 1 := by
  unfold mkDropout; split_ifs with h <;> simp [h]

lemma mkOnes_ok (n : ℤ) : mkOnes n = .ok () ↔ 0 ≤ n := by
  unfold mkOnes; split_ifs with h <;> simp [h]

lemma mkLayerNorm_ok (n : ℤ) : mkLayerNorm n = .ok () ↔ 0 ≤ n := by
  unfold mkLayerNorm; split_ifs with h <;> simp [h]

lemma blockInit_ok (c : GPTconfig) :
    blockInit c = .ok () ↔
      c.n_embd % c.n_head = 0 ∧ 0 ≤ c.n_embd ∧ 0 ≤ c.context_len ∧
        0 ≤ c.n_embd * c.ffw_widen ∧ 0 ≤ c.dropout ∧ c.dropout ≤ 1 := by
  unfold blockInit mhaInit ffwInit
  simp only [except_bind_ok, pyAssert_ok, mkLinear_ok, mkDropout_ok,
    mkOnes_ok, mkLayerNorm_ok]
  have h3 : (0 : ℤ) ≤ 3 * c.n_embd ↔ 0 ≤ c.n_embd := by omega
  rw [h3]
  tauto

lemma foldlM_blockInit_ok (c : GPTconfig) (l : List ℕ) (u : Unit) :
    l.foldlM (fun _ _ => blockInit c) u = .ok () ↔
      l = [] ∨ blockInit c = .ok () := by
  cases hb : blockInit c with
  | ok v =>
    cases v
    simp only [hb, or_true, iff_true]
    induction l generalizing u with
    | nil => rfl
    | cons a l ih => simpa [List.foldlM, hb, Bind.bind, Except.bind] using ih ()
  | error e =>
    cases l with
    | nil => cases u; simp [List.foldlM, pure, Except.pure]
    | cons a l =>
      simp only [List.foldlM, hb]
      constructor
      · intro h
        exact absurd h (by simp [Bind.bind, Except.bind])
      · rintro (h | h) <;> simp_all

/-! ## Claim theorems -/

/-- C3: after construction the `transformer.wte.weight` field and the
`lm_head.weight` field hold the same parameter reference, so an in-place
write through either reference is read back through the other; the references
are construction-time constants (initialization and forward only transform
the store, never the reference fields), so the aliasing holds for the
lifetime of the model. -/
theorem weight_tying_aliasing (nl : ℕ) (ab fb lb : Bool) :
    (gptBuild nl ab fb lb).wteW = (gptBuild nl ab fb lb).lmW ∧
      ∀ (β : Type) (s : PStore β) (i j : ℕ) (v : β),
        readP (writeP s (gptBuild nl ab fb lb).wteW i j v)
            (gptBuild nl ab fb lb).lmW i j = v ∧
          readP (writeP s (gptBuild nl ab fb lb).lmW i j v)
            (gptBuild nl ab fb lb).wteW i j = v := by
  refine ⟨rfl, fun β s i j v => ⟨?_, ?_⟩⟩ <;>
    simp [gptBuild, readP, writeP]

lemma gptInit_ok_iff (c : GPTconfig) :
    gptInit c = .ok () ↔ validCfg c := by
  unfold gptInit validCfg
  simp only [except_bind_ok, pyAssert_ok, mkEmbedding_ok, mkDropout_ok,
    mkLayerNorm_ok, mkLinear_ok, foldlM_blockInit_ok, blockInit_ok,
    List.range_eq_nil]
  constructor
  · rintro ⟨h1, h2, h3, ⟨h4a, h4b⟩, ⟨h5a, h5b⟩, ⟨h6a, h6b⟩, hfold, h8, h9⟩
    rcases hfold with h | h
    · omega
    · exact ⟨h1, h2, h3, h.1, h.2.1, h.2.2.1, h.2.2.2.1, h.2.2.2.2⟩
  · rintro ⟨h1, h2, h3, h4, h5, h6, h7, h8, h9⟩
    refine ⟨h1, h2, h3, ⟨by omega, h5⟩, ⟨h6, h5⟩, ⟨h8, h9⟩,
      Or.inr ⟨h4, h5, h6, h7, h8, h9⟩, h5, ⟨h5, by omega⟩⟩

/-- C7 counterexample: four configurations satisfying every validity
condition the claim lists (positive head/layer/vocab counts and
`n_embd % n_head = 0`), on which construction nevertheless fails:
`context_len = -1`, `n_embd = -8`, `dropout = 2`, `ffw_widen = -1`. -/
theorem gpt_construction_claimed_iff_false :
    (claimedValid cfgA ∧ gptInit cfgA ≠ .ok ()) ∧
      (claimedValid cfgB ∧ gptInit cfgB ≠ .ok ()) ∧
      (claimedValid cfgC ∧ gptInit cfgC ≠ .ok ()) ∧
      (claimedValid cfgD ∧ gptInit cfgD ≠ .ok ()) := by
  refine ⟨⟨by decide, fun h => absurd ((gptInit_ok_iff cfgA).mp h) ?_⟩,
    ⟨by decide, fun h => absurd ((gptInit_ok_iff cfgB).mp h) ?_⟩,
    ⟨by decide, fun h => absurd ((gptInit_ok_iff cfgC).mp h) ?_⟩,
    ⟨by decide, fun h => absurd ((gptInit_ok_iff cfgD).mp h) ?_⟩⟩ <;>
  · unfold validCfg
    decide

/-- C7 (amended): construction succeeds exactly when the configuration
passes the asserted conditions (positive `n_head`, `n_layer`, `vocab_size`;
`n_embd % n_head = 0`) and the torch-level argument checks (non-negative
`n_embd`, `context_len` and `n_embd * ffw_widen`; `dropout` within
`[0, 1]`); otherwise it fails fast with a descriptive error. -/
theorem gpt_construction_iff_valid (c : GPTconfig) :
    gptInit c = .ok () ↔ validCfg c :=
  gptInit_ok_iff c

/-- C8: `GPT.forward` fails immediately with the assertion message when the
sequence length `T` exceeds `context_len`, and when `T ≤ context_len` the
length check passes and forward proceeds with the unmodified input (no
silent correction). -/
theorem forward_length_check {B T V ctx nh hs F : ℕ} (ops : Prims α)
    (p : GPTParams V ctx nh hs F α) (m : GPTMasks B T nh hs α)
    (idx : Fin B → Fin T → ℤ) (targets : Option (Fin B → Fin T → ℤ)) :
    (ctx < T → gptForward ops p m idx targets = .error (lengthErr T ctx)) ∧
      ∀ hT : T ≤ ctx,
        gptForward ops p m idx targets = gptForwardBody ops p m idx targets hT := by
  constructor
  · intro h
    exact dif_neg (by omega)
  · intro hT
    exact dif_pos hT

/-- C8 witness: at `T = 3 > context_len = 2` forward returns the assertion
error; at `T = 2 ≤ context_len = 2` it proceeds to the body. -/
theorem forward_length_check_witness :
    gptForward ops0 p1 (ms1 3) (idxZ 3) none = .error (lengthErr 3 2) ∧
      gptForward ops0 p1 (ms1 2) (idxZ 2) none =
        gptForwardBody ops0 p1 (ms1 2) (idxZ 2) none (by decide) := by
  exact ⟨(forward_length_check ops0 p1 (ms1 3) (idxZ 3) none).1 (by decide),
    (forward_length_check ops0 p1 (ms1 2) (idxZ 2) none).2 (by decide)⟩

/-- C9: `TransformerBlock.forward` is exactly the pre-normalization residual
composition `x1 = x + Attention(Norm1 x)`, `out = x1 + FeedForward(Norm2 x1)`
where both norms are `nn.LayerNorm` over the last dimension with learned
scale and shift. -/
theorem block_is_prenorm_residual {B T nh hs F : ℕ} (ops : Prims α)
    (bp : BlockParams nh hs F α) (bm : BlockMasks B T nh hs α)
    (x : T3 B T (nh * hs) α) :
    blockForward ops bp bm x =
      preNormResidual (mhaForward ops bp bm.attDrop bm.attOutDrop)
        (ffwForward bp bm.ffwDrop) (lnT3 ops bp.ln1g bp.ln1b)
        (lnT3 ops bp.ln2g bp.ln2b) x := rfl

/-! ## Causality (C2) -/

section Causality

variable {B T nh hs F : ℕ} {i : ℕ}

omit [LinearOrderedField α] in
lemma row_eq_of_agree {C : ℕ} {x y : T3 B T C α} (h : AgreeUpTo i x y)
    {b : Fin B} {t : Fin T} (ht : (t : ℕ) ≤ i) : x b t = y b t :=
  funext fun c => h b t c ht

lemma agree_lnT3 {C : ℕ} {x y : T3 B T C α} (ops : Prims α) (g b2 : Fin C → α)
    (h : AgreeUpTo i x y) :
    AgreeUpTo i (lnT3 ops g b2 x) (lnT3 ops g b2 y) := by
  intro b t c ht
  unfold lnT3
  rw [row_eq_of_agree h ht]

lemma agree_qkvOut {x y : T3 B T (nh * hs) α} (bp : BlockParams nh hs F α)
    (h : AgreeUpTo i x y) {b : Fin B} {t : Fin T} (ht : (t : ℕ) ≤ i) :
    qkvOut bp x b t = qkvOut bp y b t := by
  unfold qkvOut
  rw [row_eq_of_agree h ht]

lemma agree_attExp {x y : T3 B T (nh * hs) α} (ops : Prims α)
    (bp : BlockParams nh hs F α) (h : AgreeUpTo i x y) {b : Fin B}
    {hh : Fin nh} {t : Fin T} (ht : (t : ℕ) ≤ i) (t2 : Fin T) :
    attExp ops bp x b hh t t2 = attExp ops bp y b hh t t2 := by
  unfold attExp
  by_cases ht2 : (t2 : ℕ) ≤ (t : ℕ)
  · rw [if_pos ht2, if_pos ht2]
    unfold attScore qHead kHead
    rw [agree_qkvOut bp h ht, agree_qkvOut bp h (le_trans ht2 ht)]
  · rw [if_neg ht2, if_neg ht2]

lemma agree_attWeight {x y : T3 B T (nh * hs) α} (ops : Prims α)
    (bp : BlockParams nh hs F α) (h : AgreeUpTo i x y) {b : Fin B}
    {hh : Fin nh} {t : Fin T} (ht : (t : ℕ) ≤ i) (t2 : Fin T) :
    attWeight ops bp x b hh t t2 = attWeight ops bp y b hh t t2 := by
  unfold attWeight
  rw [agree_attExp ops bp h ht t2]
  congr 1
  exact Finset.sum_congr rfl fun t3 _ => agree_attExp ops bp h ht t3

lemma agree_mhaForward {x y : T3 B T (nh * hs) α} (ops : Prims α)
    (bp : BlockParams nh hs F α)
    (attM : Fin B → Fin nh → Fin T → Fin T → α) (outM : T3 B T (nh * hs) α)
    (h : AgreeUpTo i x y) :
    AgreeUpTo i (mhaForward ops bp attM outM x)
      (mhaForward ops bp attM outM y) := by
  intro b t c ht
  unfold mhaForward
  refine congrArg (fun f => outM b t c * linearMap bp.projW bp.projB f c)
    (funext fun c2 => Finset.sum_congr rfl fun t2 _ => ?_)
  rw [agree_attWeight ops bp h ht t2]
  by_cases ht2 : (t2 : ℕ) ≤ (t : ℕ)
  · have hv : vHead bp x b (hOf c2) t2 (sOf c2) =
        vHead bp y b (hOf c2) t2 (sOf c2) := by
      unfold vHead
      rw [agree_qkvOut bp h (le_trans ht2 ht)]
    rw [hv]
  · have hw : attWeight ops bp y b (hOf c2) t t2 = 0 := by
      unfold attWeight attExp
      rw [if_neg ht2]
      exact zero_div _
    rw [hw]
    ring

lemma agree_ffwForward {x y : T3 B T (nh * hs) α} (bp : BlockParams nh hs F α)
    (ffwM : T3 B T (nh * hs) α) (h : AgreeUpTo i x y) :
    AgreeUpTo i (ffwForward bp ffwM x) (ffwForward bp ffwM y) := by
  intro b t c ht
  unfold ffwForward
  rw [row_eq_of_agree h ht]

lemma agree_blockForward {x y : T3 B T (nh * hs) α} (ops : Prims α)
    (bp : BlockParams nh hs F α) (bm : BlockMasks B T nh hs α)
    (h : AgreeUpTo i x y) :
    AgreeUpTo i (blockForward ops bp bm x) (blockForward ops bp bm y) := by
  have hA : AgreeUpTo i (attnSub ops bp bm x) (attnSub ops bp bm y) := by
    intro b t c ht
    unfold attnSub
    rw [h b t c ht,
      agree_mhaForward ops bp bm.attDrop bm.attOutDrop
        (agree_lnT3 ops bp.ln1g bp.ln1b h) b t c ht]
  intro b t c ht
  unfold blockForward
  rw [hA b t c ht,
    agree_ffwForward bp bm.ffwDrop
      (agree_lnT3 ops bp.ln2g bp.ln2b hA) b t c ht]

lemma agree_foldBlocks {x y : T3 B T (nh * hs) α} (ops : Prims α)
    (l : List (BlockParams nh hs F α × BlockMasks B T nh hs α))
    (h : AgreeUpTo i x y) :
    AgreeUpTo i
      (l.foldl (fun acc pr => blockForward ops pr.1 pr.2 acc) x)
      (l.foldl (fun acc pr => blockForward ops pr.1 pr.2 acc) y) := by
  induction l generalizing x y with
  | nil => exact h
  | cons a l ih =>
    exact ih (agree_blockForward ops a.1 a.2 h)

end Causality

/-- C2: strict causality as two-run noninterference.  For two token batches
that agree at every position `t ≤ i` (and may differ arbitrarily at later
positions), a forward pass with the same parameters, the same targets-mode
pipeline and the same realized dropout multipliers produces identical logits
at every position `t ≤ i`. -/
theorem causal_noninterference {B T V ctx nh hs F : ℕ} (i : ℕ)
    (ops : Prims α) (p : GPTParams V ctx nh hs F α)
    (m : GPTMasks B T nh hs α) (idx1 idx2 : Fin B → Fin T → ℤ)
    (hT : T ≤ ctx) (hv1 : ∀ b t, 0 ≤ idx1 b t ∧ idx1 b t < (V : ℤ))
    (hv2 : ∀ b t, 0 ≤ idx2 b t ∧ idx2 b t < (V : ℤ))
    (hagree : ∀ (b : Fin B) (t : Fin T), (t : ℕ) ≤ i → idx1 b t = idx2 b t) :
    ∀ (b : Fin B) (t : Fin T) (v2 : Fin V), (t : ℕ) ≤ i →
      gptLogitsAll ops p m idx1 hT hv1 b t v2 =
        gptLogitsAll ops p m idx2 hT hv2 b t v2 := by
  have h0 : AgreeUpTo i
      (fun b t c => m.embDrop b t c *
        (p.lmW (tokFin idx1 hv1 b t) c + p.wpeW (Fin.castLE hT t) c))
      (fun b t c => m.embDrop b t c *
        (p.lmW (tokFin idx2 hv2 b t) c + p.wpeW (Fin.castLE hT t) c)) := by
    intro b t c ht
    have htok : tokFin idx1 hv1 b t = tokFin idx2 hv2 b t := by
      apply Fin.ext
      simp [tokFin, hagree b t ht]
    dsimp only
    rw [htok]
  have hx : AgreeUpTo i (gptX ops p m idx1 hT hv1)
      (gptX ops p m idx2 hT hv2) := by
    unfold gptX
    exact agree_lnT3 ops p.lnfg p.lnfb
      (agree_foldBlocks ops (p.blocks.zip m.blockMasks) h0)
  intro b t v2 ht
  unfold gptLogitsAll lmHeadT3
  rw [row_eq_of_agree hx ht]

/-- C2 witness: the two concrete `(1, 2)` batches `[0, 0]` and `[0, 1]`
agree at position 0 and differ at the future position 1; the position-0
logit agrees. -/
theorem causal_noninterference_witness :
    gptLogitsAll ops0 p1 (ms1 2) (idxZ 2) (by decide)
        (by decide) 0 0 0 =
      gptLogitsAll ops0 p1 (ms1 2) idxPerturbed (by decide)
        (by decide) 0 0 0 :=
  causal_noninterference 0 ops0 p1 (ms1 2) (idxZ 2) idxPerturbed
    (by decide) (by decide) (by decide) (by decide) 0 0 0 (by decide)

/-! ## Cross-entropy loss lemmas (C10, C4, C1) -/

section CELoss

variable {B T V : ℕ}

lemma ceFold_all_ignored (ops : Prims α) (ig : ℤ)
    (L : Fin B → Fin T → Fin V → α) (tg : Fin B → Fin T → ℤ)
    (l : List (Fin B × Fin T)) :
    ∀ acc : α × ℕ, (∀ p2 ∈ l, tg p2.1 p2.2 = ig) →
      l.foldlM (ceStep ops ig L tg) acc = .ok acc := by
  induction l with
  | nil => intro acc _; rfl
  | cons p l ih =>
    intro acc h
    have hp : tg p.1 p.2 = ig := h p (List.mem_cons_self p l)
    simp only [List.foldlM]
    unfold ceStep
    rw [if_pos hp]
    show Except.ok acc >>= _ = _
    simp only [Bind.bind, Except.bind]
    exact ih acc fun q hq => h q (List.mem_cons_of_mem p hq)

lemma ceFold_spec (ops : Prims α) (ig : ℤ) (L : Fin B → Fin T → Fin V → α)
    (tg : Fin B → Fin T → ℤ) (l : List (Fin B × Fin T)) :
    ∀ acc : α × ℕ,
      (∀ p2 ∈ l, tg p2.1 p2.2 = ig ∨
        (0 ≤ tg p2.1 p2.2 ∧ tg p2.1 p2.2 < (V : ℤ))) →
      l.foldlM (ceStep ops ig L tg) acc =
        .ok (acc.1 +
          ((l.filter fun p2 => decide (tg p2.1 p2.2 ≠ ig)).map
            (ceNllAt ops L tg)).sum,
          acc.2 +
            (l.filter fun p2 => decide (tg p2.1 p2.2 ≠ ig)).length) := by
  induction l with
  | nil => intro acc _; simp [List.foldlM, pure, Except.pure]
  | cons p l ih =>
    intro acc h
    simp only [List.foldlM]
    by_cases hig : tg p.1 p.2 = ig
    · have hstep : ceStep ops ig L tg acc p = .ok acc := by
        unfold ceStep
        rw [if_pos hig]
      rw [hstep]
      show Except.ok acc >>= _ = _
      simp only [Bind.bind, Except.bind]
      rw [ih acc fun q hq => h q (List.mem_cons_of_mem p hq)]
      have hf : (List.filter (fun p2 => decide (tg p2.1 p2.2 ≠ ig)) (p :: l)) =
          List.filter (fun p2 => decide (tg p2.1 p2.2 ≠ ig)) l := by
        rw [List.filter_cons_of_neg (by simp [hig])]
      rw [hf]
    · have hb : 0 ≤ tg p.1 p.2 ∧ tg p.1 p.2 < (V : ℤ) :=
        (h p (List.mem_cons_self p l)).resolve_left hig
      have hstep : ceStep ops ig L tg acc p =
          .ok (acc.1 + ceNllAt ops L tg p, acc.2 + 1) := by
        unfold ceStep ceNllAt
        rw [if_neg hig, dif_pos hb, dif_pos hb]
      rw [hstep]
      show Except.ok _ >>= _ = _
      simp only [Bind.bind, Except.bind]
      rw [ih _ fun q hq => h q (List.mem_cons_of_mem p hq)]
      have hf : (List.filter (fun p2 => decide (tg p2.1 p2.2 ≠ ig)) (p :: l)) =
          p :: List.filter (fun p2 => decide (tg p2.1 p2.2 ≠ ig)) l := by
        rw [List.filter_cons_of_pos (by simp [hig])]
      rw [hf]
      simp only [List.map_cons, List.sum_cons, List.length_cons]
      refine congrArg Except.ok (Prod.ext ?_ ?_) <;> dsimp only
      · ring
      · omega

lemma ceFold_congr (ops : Prims α) (ig : ℤ)
    (L L2 : Fin B → Fin T → Fin V → α) (tg : Fin B → Fin T → ℤ)
    (hLL : ∀ p2 : Fin B × Fin T, tg p2.1 p2.2 ≠ ig →
      L2 p2.1 p2.2 = L p2.1 p2.2) (l : List (Fin B × Fin T)) :
    ∀ acc : α × ℕ,
      l.foldlM (ceStep ops ig L2 tg) acc = l.foldlM (ceStep ops ig L tg) acc := by
  induction l with
  | nil => intro acc; rfl
  | cons p l ih =>
    intro acc
    simp only [List.foldlM]
    have hstep : ceStep ops ig L2 tg acc p = ceStep ops ig L tg acc p := by
      unfold ceStep
      by_cases hig : tg p.1 p.2 = ig
      · rw [if_pos hig, if_pos hig]
      · by_cases hb : 0 ≤ tg p.1 p.2 ∧ tg p.1 p.2 < (V : ℤ)
        · rw [if_neg hig, if_neg hig, dif_pos hb, dif_pos hb, hLL p hig]
        · rw [if_neg hig, if_neg hig, dif_neg hb, dif_neg hb]
    rw [hstep]
    rcases hr : ceStep ops ig L tg acc p with e | a
    · show Except.error e >>= _ = Except.error e >>= _
      simp [Bind.bind, Except.bind]
    · show Except.ok a >>= _ = Except.ok a >>= _
      simp only [Bind.bind, Except.bind]
      exact ih a

/-- The mean reduction of `ceLossResult` under in-range targets:
`NaN` when no position is kept, otherwise the mean over the kept positions. -/
lemma ceLossResult_spec (ops : Prims α) (ig : ℤ)
    (L : Fin B → Fin T → Fin V → α) (tg : Fin B → Fin T → ℤ)
    (h : ∀ (b : Fin B) (t : Fin T), tg b t = ig ∨
      (0 ≤ tg b t ∧ tg b t < (V : ℤ))) :
    ceLossResult ops ig L tg =
      .ok (if (ceKept ig tg).length = 0 then .nan
        else .fin (((ceKept ig tg).map (ceNllAt ops L tg)).sum /
          ((ceKept ig tg).length : α))) := by
  unfold ceLossResult
  rw [ceFold_spec ops ig L tg (ceItems B T) ((0 : α), (0 : ℕ))
    (fun p2 _ => h p2.1 p2.2)]
  show Except.ok _ >>= _ = _
  simp only [Bind.bind, Except.bind, zero_add]
  unfold ceKept
  split_ifs with h0 <;> rfl

end CELoss

/-- C10: the reserved ignore index the loss uses is exactly `-1`; a position
whose target is `-1` contributes nothing (the loss is unchanged by arbitrary
modification of that position's logits), and every position with any other
target is kept by the reduction (never excluded): under in-range targets the
result is exactly the mean over the positions with target `≠ -1`. -/
theorem ce_ignore_index_exactly_neg_one {B T V : ℕ} (ops : Prims α)
    (L L2 : Fin B → Fin T → Fin V → α) (tg : Fin B → Fin T → ℤ)
    (b : Fin B) (t : Fin T) :
    gptIgnoreIndex = -1 ∧
      (tg b t = -1 →
        (∀ (b2 : Fin B) (t2 : Fin T), ¬(b2 = b ∧ t2 = t) →
          L2 b2 t2 = L b2 t2) →
        ceLossResult ops gptIgnoreIndex L2 tg =
          ceLossResult ops gptIgnoreIndex L tg) ∧
      (tg b t ≠ -1 → (b, t) ∈ ceKept gptIgnoreIndex tg) ∧
      ((∀ (b2 : Fin B) (t2 : Fin T), tg b2 t2 = -1 ∨
          (0 ≤ tg b2 t2 ∧ tg b2 t2 < (V : ℤ))) →
        ceLossResult ops gptIgnoreIndex L tg =
          .ok (if (ceKept gptIgnoreIndex tg).length = 0 then .nan
            else .fin (((ceKept gptIgnoreIndex tg).map
              (ceNllAt ops L tg)).sum /
                ((ceKept gptIgnoreIndex tg).length : α)))) := by
  refine ⟨rfl, ?_, ?_, ?_⟩
  · intro hig hLL
    unfold ceLossResult
    rw [ceFold_congr ops gptIgnoreIndex L L2 tg ?_ (ceItems B T)]
    intro p2 hne
    by_cases hp : p2.1 = b ∧ p2.2 = t
    · exfalso
      apply hne
      rw [hp.1, hp.2, hig]
      rfl
    · exact hLL p2.1 p2.2 hp
  · intro hne
    unfold ceKept ceItems
    rw [List.mem_filter]
    constructor
    · simp only [List.mem_flatMap, List.mem_map]
      exact ⟨b, List.mem_finRange b, t, List.mem_finRange t, rfl⟩
    · simpa using hne
  · exact ceLossResult_spec ops gptIgnoreIndex L tg

/-- C10 witness: instantiating the ignored-position invariance and the
kept-membership at concrete `(1, 1)` data. -/
theorem ce_ignore_index_witness :
    (ceLossResult ops0 gptIgnoreIndex
        (fun (_ : Fin 1) (_ : Fin 1) (_ : Fin 2) => (7 : ℚ)) tgIgnore =
      ceLossResult ops0 gptIgnoreIndex
        (fun (_ : Fin 1) (_ : Fin 1) (_ : Fin 2) => (0 : ℚ)) tgIgnore) ∧
      ((0 : Fin 1), (0 : Fin 1)) ∈ ceKept gptIgnoreIndex tgBad := by
  have h := ce_ignore_index_exactly_neg_one ops0
    (fun (_ : Fin 1) (_ : Fin 1) (_ : Fin 2) => (0 : ℚ))
    (fun (_ : Fin 1) (_ : Fin 1) (_ : Fin 2) => (7 : ℚ)) tgIgnore 0 0
  have h2 := ce_ignore_index_exactly_neg_one ops0
    (fun (_ : Fin 1) (_ : Fin 1) (_ : Fin 2) => (0 : ℚ))
    (fun (_ : Fin 1) (_ : Fin 1) (_ : Fin 2) => (0 : ℚ)) tgBad 0 0
  exact ⟨h.2.1 (by decide)
      (fun b2 t2 hn =>
        absurd ⟨Subsingleton.elim b2 0, Subsingleton.elim t2 0⟩ hn),
    h2.2.2.1 (by decide)⟩

/-- C4 (amended): with every target equal to the ignore index the forward
pass does not raise, and the returned loss is deterministically `NaN` (the
mean reduces over zero elements, the float `0/0`), not a finite value. -/
theorem loss_all_ignored_is_nan {B T V ctx nh hs F : ℕ} (ops : Prims α)
    (p : GPTParams V ctx nh hs F α) (m : GPTMasks B T nh hs α)
    (idx : Fin B → Fin T → ℤ) (tg : Fin B → Fin T → ℤ) (hT : T ≤ ctx)
    (hv : ∀ b t, 0 ≤ idx b t ∧ idx b t < (V : ℤ))
    (htg : ∀ (b : Fin B) (t : Fin T), tg b t = gptIgnoreIndex) :
    gptForward ops p m idx (some tg) =
      .ok (⟨B, T, V, gptLogitsAll ops p m idx hT hv⟩, some .nan) := by
  unfold gptForward
  rw [dif_pos hT]
  unfold gptForwardBody
  rw [dif_pos hv]
  show (ceLossResult ops gptIgnoreIndex _ tg >>= _) = _
  unfold ceLossResult
  rw [ceFold_all_ignored ops gptIgnoreIndex _ tg (ceItems B T)
    ((0 : α), (0 : ℕ)) (fun p2 _ => htg p2.1 p2.2)]
  rfl

/-- C4 counterexample: on a concrete model with all targets `= -1`, forward
does not raise but the loss it returns is `NaN`, which is not a finite
(well-defined) loss value. -/
theorem loss_all_ignored_nan_concrete :
    (gptForward ops0 p1 (ms1 1) (idxZ 1) (some tgIgnore)).map
        (fun r => r.2) = .ok (some FVal.nan) ∧
      ∀ q : ℚ, (FVal.nan : FVal ℚ) ≠ FVal.fin q := by
  constructor
  · rfl
  · intro q h
    cases h

/-- C4 witness: the amended theorem applied at the concrete model. -/
theorem loss_all_ignored_is_nan_witness :
    gptForward ops0 p1 (ms1 1) (idxZ 1) (some tgIgnore) =
      .ok (⟨1, 1, 2, gptLogitsAll ops0 p1 (ms1 1) (idxZ 1) (by decide)
        (by decide)⟩, some .nan) :=
  loss_all_ignored_is_nan ops0 p1 (ms1 1) (idxZ 1) tgIgnore
    (by decide) (by decide) (by decide)

/-- C1 (amended): for `T ≤ context_len` and in-range tokens, forward with a
targets tensor whose entries lie in `[0, vocab_size) ∪ {-1}` returns logits
of shape `(B, T, vocab_size)` together with a loss; without targets and with
`1 ≤ T` it returns logits of shape `(B, 1, vocab_size)` and a `None` loss. -/
theorem forward_shapes {B T V ctx nh hs F : ℕ} (ops : Prims α)
    (p : GPTParams V ctx nh hs F α) (m : GPTMasks B T nh hs α)
    (idx : Fin B → Fin T → ℤ) (hT : T ≤ ctx)
    (hv : ∀ b t, 0 ≤ idx b t ∧ idx b t < (V : ℤ)) :
    (∀ tg : Fin B → Fin T → ℤ,
        (∀ (b : Fin B) (t : Fin T), tg b t = gptIgnoreIndex ∨
          (0 ≤ tg b t ∧ tg b t < (V : ℤ))) →
        ∃ r, gptForward ops p m idx (some tg) = .ok r ∧
          shape3 r.1 = (B, T, V) ∧ ∃ fv, r.2 = some fv) ∧
      (0 < T →
        ∃ r, gptForward ops p m idx none = .ok r ∧
          shape3 r.1 = (B, 1, V) ∧ r.2 = none) := by
  constructor
  · intro tg htg
    refine ⟨(⟨B, T, V, gptLogitsAll ops p m idx hT hv⟩,
      some (if (ceKept gptIgnoreIndex tg).length = 0 then .nan
        else .fin (((ceKept gptIgnoreIndex tg).map
          (ceNllAt ops (gptLogitsAll ops p m idx hT hv) tg)).sum /
            ((ceKept gptIgnoreIndex tg).length : α)))), ?_, rfl, ⟨_, rfl⟩⟩
    unfold gptForward
    rw [dif_pos hT]
    unfold gptForwardBody
    rw [dif_pos hv]
    show (ceLossResult ops gptIgnoreIndex _ tg >>= _) = _
    rw [ceLossResult_spec ops gptIgnoreIndex _ tg htg]
    rfl
  · intro h0
    refine ⟨(⟨B, 1, V, fun b _ v2 =>
      gptLogitsAll ops p m idx hT hv b ⟨T - 1, by omega⟩ v2⟩, none),
      ?_, rfl, rfl⟩
    unfold gptForward
    rw [dif_pos hT]
    unfold gptForwardBody
    rw [dif_pos hv]
    rw [dif_pos h0]

/-- C1 counterexample: two inputs meeting every condition the claim states
(`T ≤ context_len`, in-range tokens) on which forward nevertheless fails:
the empty `(1, 0)` batch in inference mode (the `[-1]` index of the last
position is out of bounds for a size-0 dimension), and a `(1, 1)` batch with
a supplied targets tensor holding the out-of-range value `5`. -/
theorem forward_shapes_claim_false :
    gptForward ops0 p1 msT0 idxT0 none =
      .error "index -1 is out of bounds for dimension 1 with size 0" ∧
    gptForward ops0 p1 (ms1 1) (idxZ 1) (some tgBad) =
      .error "Target 5 is out of bounds." := ⟨rfl, rfl⟩

/-! ## `named_parameters` deduplication (C5, C6) -/

section NamedParams

lemma blockEntries_refs (ab fb : Bool) (i : ℕ) :
    (blockEntries (mkBlockRefs ab fb i)).map (fun e => e.2) =
      blockRefList ab fb i := by
  rcases ab <;> rcases fb <;> rfl

lemma refIdx_blockRefList (ab fb : Bool) (i : ℕ) :
    ∀ r ∈ blockRefList ab fb i, refIdx r = some i := by
  intro r hr
  rcases ab <;> rcases fb <;> fin_cases hr <;> rfl

lemma nodup_blockRefList (ab fb : Bool) (i : ℕ) :
    (blockRefList ab fb i).Nodup := by
  rcases ab <;> rcases fb <;> simp [blockRefList]

lemma mem_blockEntries_refIdx (ab fb : Bool) (i : ℕ) :
    ∀ e ∈ blockEntries (mkBlockRefs ab fb i), refIdx e.2 = some i := by
  intro e he
  refine refIdx_blockRefList ab fb i e.2 ?_
  rw [← blockEntries_refs ab fb i]
  exact List.mem_map_of_mem _ he

lemma mem_blkEntries_refIdx (ab fb : Bool) (nl : ℕ) :
    ∀ e ∈ ((List.range nl).map (mkBlockRefs ab fb)).flatMap blockEntries,
      ∃ i, i < nl ∧ refIdx e.2 = some i := by
  intro e he
  rw [List.mem_flatMap] at he
  obtain ⟨b, hb, heb⟩ := he
  rw [List.mem_map] at hb
  obtain ⟨i, hi, rfl⟩ := hb
  exact ⟨i, List.mem_range.mp hi, mem_blockEntries_refIdx ab fb i e heb⟩

lemma ne_of_refIdx_ne {r s : PRef} (h : refIdx r ≠ refIdx s) : r ≠ s :=
  fun he => h (he ▸ rfl)

lemma pairwise_blockEntries (ab fb : Bool) (i : ℕ) :
    (blockEntries (mkBlockRefs ab fb i)).Pairwise
      (fun a b => a.2 ≠ b.2) := by
  have h := nodup_blockRefList ab fb i
  rw [← blockEntries_refs ab fb i] at h
  exact List.pairwise_map.mp h

lemma pairwise_blkEntries (ab fb : Bool) :
    ∀ nl, (((List.range nl).map (mkBlockRefs ab fb)).flatMap
      blockEntries).Pairwise (fun a b => a.2 ≠ b.2) := by
  intro nl
  induction nl with
  | zero => simp
  | succ n ih =>
    rw [List.range_succ, List.map_append, List.flatMap_append,
      List.pairwise_append]
    refine ⟨ih, ?_, ?_⟩
    · simpa using pairwise_blockEntries ab fb n
    · intro a ha b hb
      obtain ⟨i, hilt, hai⟩ := mem_blkEntries_refIdx ab fb n a ha
      simp only [List.map_cons, List.map_nil, List.flatMap_cons,
        List.flatMap_nil, List.append_nil] at hb
      have hbn := mem_blockEntries_refIdx ab fb n b hb
      refine ne_of_refIdx_ne ?_
      rw [hai, hbn]
      intro h
      have := Option.some.inj h
      omega

lemma dedupByRef_eq_self :
    ∀ l : List (List String × PRef),
      l.Pairwise (fun a b => a.2 ≠ b.2) → dedupByRef l = l := by
  intro l
  induction l with
  | nil => intro _; rw [dedupByRef]
  | cons x xs ih =>
    intro h
    rcases List.pairwise_cons.mp h with ⟨hx, hxs⟩
    rw [dedupByRef]
    have hf : xs.filter (fun y => decide (y.2 ≠ x.2)) = xs :=
      List.filter_eq_self.mpr fun y hy => by simpa using (hx y hy).symm
    rw [hf]
    exact congrArg (x :: ·) (ih hxs)

/-- The resolved `named_parameters()` of a freshly built model: the
duplicate removal drops exactly the `lm_head.weight` entry (its parameter
object was first seen as `transformer.wte.weight`), and nothing else. -/
lemma namedParameters_gptBuild (nl : ℕ) (ab fb lb : Bool) :
    namedParameters (gptBuild nl ab fb lb) = uniqueNamed nl ab fb lb := by
  unfold namedParameters
  have hraw : rawNamed (gptBuild nl ab fb lb) =
      (["transformer", "wte", "weight"], PRef.lmW) ::
        ((["transformer", "wpe", "weight"], PRef.wpe) ::
          (((List.range nl).map (mkBlockRefs ab fb)).flatMap blockEntries
            ++ ([(["transformer", "ln_f", "weight"], PRef.lnfW),
                (["transformer", "ln_f", "bias"], PRef.lnfB),
                (["lm_head", "weight"], PRef.lmW)]
              ++ (if lb then [(["lm_head", "bias"], PRef.lmB)]
                  else [])))) := by
    rcases lb <;> simp [rawNamed, gptBuild, optEntry, List.append_assoc]
  rw [hraw, dedupByRef]
  have hfil :
      ((["transformer", "wpe", "weight"], PRef.wpe) ::
        (((List.range nl).map (mkBlockRefs ab fb)).flatMap blockEntries
          ++ ([(["transformer", "ln_f", "weight"], PRef.lnfW),
              (["transformer", "ln_f", "bias"], PRef.lnfB),
              (["lm_head", "weight"], PRef.lmW)]
            ++ (if lb then [(["lm_head", "bias"], PRef.lmB)]
                else [])))).filter
          (fun y => decide (y.2 ≠ PRef.lmW)) =
        (["transformer", "wpe", "weight"], PRef.wpe) ::
          (((List.range nl).map (mkBlockRefs ab fb)).flatMap blockEntries
            ++ ([(["transformer", "ln_f", "weight"], PRef.lnfW),
                (["transformer", "ln_f", "bias"], PRef.lnfB)]
              ++ (if lb then [(["lm_head", "bias"], PRef.lmB)]
                  else []))) := by
    rw [List.filter_cons_of_pos (by decide), List.filter_append,
      List.filter_append,
      List.filter_eq_self.mpr (fun e he => by
        obtain ⟨i, _, hi⟩ := mem_blkEntries_refIdx ab fb nl e he
        simp only [decide_eq_true_eq]
        intro hcon
        rw [hcon] at hi
        exact Option.noConfusion hi)]
    congr 1
    rcases lb <;> rfl
  rw [hfil]
  have hpw :
      ((["transformer", "wpe", "weight"], PRef.wpe) ::
        (((List.range nl).map (mkBlockRefs ab fb)).flatMap blockEntries
          ++ ([(["transformer", "ln_f", "weight"], PRef.lnfW),
              (["transformer", "ln_f", "bias"], PRef.lnfB)]
            ++ (if lb then [(["lm_head", "bias"], PRef.lmB)]
                else [])))).Pairwise (fun a b => a.2 ≠ b.2) := by
    refine List.pairwise_cons.mpr ⟨?_, ?_⟩
    · intro e he
      rw [List.mem_append] at he
      rcases he with he | he
      · obtain ⟨i, _, hi⟩ := mem_blkEntries_refIdx ab fb nl e he
        refine (ne_of_refIdx_ne ?_).symm
        rw [hi]
        exact fun h => Option.noConfusion h
      · rcases lb <;> fin_cases he <;> decide
    · rw [List.pairwise_append]
      refine ⟨pairwise_blkEntries ab fb nl, ?_, ?_⟩
      · rcases lb <;> simp
      · intro a ha b hb
        obtain ⟨i, _, hi⟩ := mem_blkEntries_refIdx ab fb nl a ha
        refine ne_of_refIdx_ne ?_
        rw [hi]
        rcases lb <;> fin_cases hb <;> exact fun h => Option.noConfusion h
  rw [dedupByRef_eq_self _ hpw]
  unfold uniqueNamed
  simp [List.append_assoc]

lemma blockEntries_sum (V ctx C F : ℕ) (ab fb : Bool) (i : ℕ) :
    ((blockEntries (mkBlockRefs ab fb i)).map
      fun e => numel V ctx C F e.2).sum = blockParamCount C F ab fb := by
  rcases ab <;> rcases fb <;>
    simp [blockEntries, mkBlockRefs, optEntry, numel, blockParamCount] <;>
    ring

lemma blkEntries_sum (V ctx C F : ℕ) (ab fb : Bool) :
    ∀ nl, ((((List.range nl).map (mkBlockRefs ab fb)).flatMap
      blockEntries).map fun e => numel V ctx C F e.2).sum =
        nl * blockParamCount C F ab fb := by
  intro nl
  induction nl with
  | zero => simp
  | succ n ih =>
    rw [List.range_succ, List.map_append, List.flatMap_append,
      List.map_append, List.sum_append, ih]
    simp only [List.map_cons, List.map_nil, List.flatMap_cons,
      List.flatMap_nil, List.append_nil]
    rw [blockEntries_sum]
    ring

lemma sum_uniqueNamed (V ctx C F nl : ℕ) (ab fb lb : Bool) :
    ((uniqueNamed nl ab fb lb).map fun e => numel V ctx C F e.2).sum =
      totalParamCount V ctx C F nl ab fb lb := by
  unfold uniqueNamed totalParamCount
  simp only [List.map_append, List.sum_append, List.map_cons, List.map_nil,
    List.sum_cons, List.sum_nil, blkEntries_sum V ctx C F ab fb nl]
  rcases lb <;> simp [numel] <;> ring

end NamedParams

/-- C5: `get_num_params(non_embedding=True)` equals the total parameter
count — in which the tied token-embedding/output-projection tensor is
counted exactly once, because `parameters()` deduplicates by object
identity — minus exactly the element count of the position-embedding weight
tensor (`context_len * n_embd`). -/
theorem get_num_params_counts_tied_once (V ctx C F nl : ℕ)
    (ab fb lb : Bool) :
    get_num_params V ctx C F (gptBuild nl ab fb lb) true =
      totalParamCount V ctx C F nl ab fb lb - ctx * C := by
  unfold get_num_params
  rw [namedParameters_gptBuild, sum_uniqueNamed]
  have hwpe : (gptBuild nl ab fb lb).wpeW = PRef.wpe := rfl
  rw [hwpe]
  simp [numel]

/-! ## The `_init_weights` rescaling pass (C6) -/

section InitEvents

lemma projPass_shape (np : List (List String × PRef)) :
    ∀ e ∈ projPass np, ∃ r2, e = .normF r2 0 .scaled := by
  intro e he
  unfold projPass at he
  rw [List.mem_filterMap] at he
  obtain ⟨a, _, heq⟩ := he
  by_cases hm : matchProjWeight a.1
  · rw [if_pos hm] at heq
    exact ⟨a.2, (Option.some.inj heq).symm⟩
  · rw [if_neg hm] at heq
    exact Option.noConfusion heq

lemma mem_projPass (np : List (List String × PRef)) (n : List String)
    (r : PRef) (hm : (n, r) ∈ np) (hmatch : matchProjWeight n = true) :
    IEvent.normF r 0 .scaled ∈ projPass np := by
  unfold projPass
  rw [List.mem_filterMap]
  exact ⟨(n, r), hm, by simp [hmatch]⟩

lemma find?_projPass (np : List (List String × PRef)) (r : PRef)
    (hex : ∃ n, (n, r) ∈ np ∧ matchProjWeight n = true) :
    (projPass np).reverse.find? (fun e => decide (evTarget e = r)) =
      some (.normF r 0 .scaled) := by
  obtain ⟨n, hm, hmatch⟩ := hex
  have hmem : IEvent.normF r 0 .scaled ∈ (projPass np).reverse :=
    List.mem_reverse.mpr (mem_projPass np n r hm hmatch)
  cases hf : (projPass np).reverse.find? (fun e => decide (evTarget e = r))
    with
  | none =>
    exfalso
    have := List.find?_eq_none.mp hf _ hmem
    simp [evTarget] at this
  | some e =>
    have hp := List.find?_some hf
    have hmm := List.mem_of_find?_eq_some hf
    rw [List.mem_reverse] at hmm
    obtain ⟨r2, he⟩ := projPass_shape np e hmm
    subst he
    simp only [evTarget, decide_eq_true_eq] at hp
    rw [hp]

/-- The last fill event of any parameter whose dotted name matches the
`endswith("proj.weight")` test is the rescaled draw from the final callback
(the one `apply` makes on the `GPT` module itself). -/
lemma lastFill_initEvents (nl : ℕ) (ab fb lb : Bool) (r : PRef)
    (hex : ∃ n, (n, r) ∈ namedParameters (gptBuild nl ab fb lb) ∧
      matchProjWeight n = true) :
    lastFill r (initEvents (gptBuild nl ab fb lb)) =
      some (.normF r 0 .scaled) := by
  unfold lastFill initEvents
  have hsplit : visitList (gptBuild nl ab fb lb) =
      ([some ((gptBuild nl ab fb lb).wteW, none),
        some ((gptBuild nl ab fb lb).wpeW, none), none]
        ++ (gptBuild nl ab fb lb).blocks.flatMap (fun b =>
            [some (b.qkvW, b.qkvB), some (b.aProjW, b.aProjB), none, none,
             some (b.cfcW, b.cfcB), none, some (b.fProjW, b.fProjB), none,
             none, none, none, none])
        ++ [none, none, none,
            some ((gptBuild nl ab fb lb).lmW, (gptBuild nl ab fb lb).lmB)])
      ++ [(none : ModInfo)] := by
    simp [visitList, List.append_assoc]
  rw [hsplit, List.flatMap_append]
  have hlast : ([(none : ModInfo)]).flatMap
      (callbackEvents (namedParameters (gptBuild nl ab fb lb))) =
        projPass (namedParameters (gptBuild nl ab fb lb)) := by
    simp [callbackEvents]
  rw [hlast, List.reverse_append, List.find?_append,
    find?_projPass _ r hex]
  rfl

end InitEvents

/-- C6: after the full `apply(self._init_weights)` traversal, the final fill
of every attention projection weight and every feed-forward projection
weight (the linear layers mapping back to embedding width, for each block
`i < n_layer`) is a fresh zero-mean normal draw with the rescaled standard
deviation symbol, whose value is `0.02 / sqrt(2 * n_layer)`. -/
theorem proj_layers_rescaled_init (ops : Prims α) (nl : ℕ)
    (ab fb lb : Bool) (i : ℕ) (hnl : 0 < nl) (hi : i < nl) :
    lastFill (.aProjW i) (initEvents (gptBuild nl ab fb lb)) =
        some (.normF (.aProjW i) 0 .scaled) ∧
      lastFill (.fProjW i) (initEvents (gptBuild nl ab fb lb)) =
        some (.normF (.fProjW i) 0 .scaled) ∧
      interpStd ops nl StdV.scaled = 2 / 100 / ops.sqrt (2 * (nl : α)) := by
  have hblock : mkBlockRefs ab fb i ∈
      (List.range nl).map (mkBlockRefs ab fb) :=
    List.mem_map_of_mem _ (List.mem_range.mpr hi)
  refine ⟨lastFill_initEvents nl ab fb lb _
      ⟨blockName i ["multi_head_sa", "proj", "weight"], ?_, by rfl⟩,
    lastFill_initEvents nl ab fb lb _
      ⟨blockName i ["ffw", "proj", "weight"], ?_, by rfl⟩, rfl⟩ <;>
  · rw [namedParameters_gptBuild]
    unfold uniqueNamed
    refine List.mem_append_left _
      (List.mem_append_left _ (List.mem_append_right _ ?_))
    rw [List.mem_flatMap]
    exact ⟨mkBlockRefs ab fb i, hblock, by
      rcases ab <;> rcases fb <;>
        simp [blockEntries, mkBlockRefs, blockName]⟩

/-- C6 witness: the theorem instantiated at `n_layer = 1`, block `0`. -/
theorem proj_layers_rescaled_init_witness :
    lastFill (.aProjW 0) (initEvents (gptBuild 1 true true false)) =
        some (.normF (.aProjW 0) 0 .scaled) ∧
      lastFill (.fProjW 0) (initEvents (gptBuild 1 true true false)) =
        some (.normF (.fProjW 0) 0 .scaled) ∧
      interpStd ops0 1 StdV.scaled = 2 / 100 / ops0.sqrt (2 * (1 : ℚ)) :=
  proj_layers_rescaled_init ops0 1 true true false 0
    (by decide) (by decide)

/-- C1 witness: concrete shapes `(1, 2, 2)` with targets and `(1, 1, 2)`
without, at `T = context_len = 2`. -/
theorem forward_shapes_witness :
    (∃ r, gptForward ops0 p1 (ms1 2) (idxZ 2) (some (idxZ 2)) = .ok r ∧
        shape3 r.1 = (1, 2, 2) ∧ ∃ fv, r.2 = some fv) ∧
      (∃ r, gptForward ops0 p1 (ms1 2) (idxZ 2) none = .ok r ∧
        shape3 r.1 = (1, 1, 2) ∧ r.2 = none) :=
  ⟨(forward_shapes ops0 p1 (ms1 2) (idxZ 2) (by decide) (by decide)).1
      (idxZ 2) (by decide),
    (forward_shapes ops0 p1 (ms1 2) (idxZ 2) (by decide) (by decide)).2
      (by decide)⟩

end BavGPT
